import Mathlib

/- Formal model of the Student Companion service (`app.py`).

   The service keeps four in-memory append-only stores (notes, moods, tasks,
   study sessions) and exposes request handlers over them.  Handlers are
   modelled as pure functions that take the current store state together with
   the parsed request payload and the external inputs the real code obtains
   from its environment (the wall clock reading, the sentiment scores produced
   by the sentiment library, the random index drawn by the tip selector) and
   return the new state paired with either a response or an error.
   Texts are `String`s, sentiment scores are rationals, machine integers are
   `Int`/`Nat`.  Word characters are modelled as ASCII letters, digits and the
   underscore, matching the documented token alphabet. -/

set_option maxHeartbeats 1000000

namespace StudentCompanion

/-! ### Reference data (`SUBJECTS`, `NOTE_CATEGORIES`, `STUDY_TIPS`) -/

def SUBJECTS : List String :=
  ["Mathematics", "Physics", "Chemistry", "Biology",
   "History", "Literature", "Computer Science",
   "Economics", "Languages", "Other"]

def NOTE_CATEGORIES : List String :=
  ["Lecture Notes", "Study Tips", "Research Ideas",
   "Questions", "Homework", "Project Ideas", "Other"]

def STUDY_TIPS_focus : List String :=
  ["Find a quiet study space",
   "Use the Pomodoro Technique (25 min study, 5 min break)",
   "Put your phone on silent mode",
   "Take regular short breaks"]

def STUDY_TIPS_memory : List String :=
  ["Create mind maps for complex topics",
   "Teach the concept to someone else",
   "Use spaced repetition technique",
   "Write summary notes after each study session"]

def STUDY_TIPS_motivation : List String :=
  ["Set specific, achievable goals",
   "Reward yourself after completing tasks",
   "Study with a friend or study group",
   "Track your progress regularly"]

def STUDY_TIPS_keys : List String := ["focus", "memory", "motivation"]

/-! ### Keyword extraction (`re.findall` + filtering inside `add_note`) -/

def isWordChar (c : Char) : Bool := c.isAlphanum || c == '_'

/-- Single left-to-right scan collecting the maximal word-character runs of the
input, the operational behaviour of `re.findall` applied to a word-run pattern.
The accumulator holds the (reversed) run currently being read. -/
def findTokensAux : List Char → List Char → List (List Char)
  | [], acc => if acc.isEmpty then [] else [acc.reverse]
  | c :: cs, acc =>
    if isWordChar c then
      findTokensAux cs (c :: acc)
    else if acc.isEmpty then
      findTokensAux cs []
    else
      acc.reverse :: findTokensAux cs []

def findTokens (l : List Char) : List (List Char) := findTokensAux l []

/-- Declarative description of the maximal word-character runs of a character
list: split on the non-word characters and drop the empty chunks. -/
def maximalWordRuns (l : List Char) : List (List Char) :=
  (l.splitOnP fun c => !isWordChar c).filter fun r => !r.isEmpty

theorem findTokensAux_eq (cs : List Char) :
    (∀ acc : List Char, acc ≠ [] →
      findTokensAux cs acc =
        (acc.reverse ++ (cs.splitOnP fun c => !isWordChar c).headI) ::
          (((cs.splitOnP fun c => !isWordChar c).tail).filter fun r => !r.isEmpty))
    ∧ findTokensAux cs [] =
        ((cs.splitOnP fun c => !isWordChar c).filter fun r => !r.isEmpty) := by
  induction cs with
  | nil =>
    refine ⟨fun acc hacc => ?_, by simp [findTokensAux]⟩
    have : acc.isEmpty = false := by
      cases acc with
      | nil => exact absurd rfl hacc
      | cons a l => rfl
    simp [findTokensAux, this, List.splitOnP_nil]
  | cons c cs ih =>
    by_cases hw : isWordChar c
    · obtain ⟨hd, tl, hS⟩ : ∃ hd tl, (cs.splitOnP fun c => !isWordChar c) = hd :: tl := by
        cases h : (cs.splitOnP fun c => !isWordChar c) with
        | nil => exact absurd h (List.splitOnP_ne_nil _ cs)
        | cons a l => exact ⟨a, l, rfl⟩
      have hsplit : ((c :: cs).splitOnP fun c => !isWordChar c) = (c :: hd) :: tl := by
        rw [List.splitOnP_cons, hw, hS]
        rfl
      constructor
      · intro acc hacc
        have h1 := ih.1 (c :: acc) (by simp)
        rw [hS] at h1
        simp only [findTokensAux, hw, if_true, h1, hsplit]
        simp
      · have h1 := ih.1 [c] (by simp)
        rw [hS] at h1
        simp only [findTokens, findTokensAux, hw, if_true, List.isEmpty_nil, h1, hsplit]
        simp
    · have hwb : isWordChar c = false := by simp [hw]
      have hsplit : ((c :: cs).splitOnP fun c => !isWordChar c) =
          [] :: (cs.splitOnP fun c => !isWordChar c) := by
        rw [List.splitOnP_cons, hwb]
        rfl
      constructor
      · intro acc hacc
        have hne : acc.isEmpty = false := by
          cases acc with
          | nil => exact absurd rfl hacc
          | cons a l => rfl
        simp only [findTokensAux, hwb, if_false, hne, Bool.false_eq_true, ih.2, hsplit]
        simp
      · simp only [findTokensAux, hwb, if_false, List.isEmpty_nil, if_true, ih.2, hsplit]
        simp

theorem findTokens_runs (l : List Char) : findTokens l = maximalWordRuns l :=
  (findTokensAux_eq l).2

def STOP_WORDS : List String := ["have", "that", "with", "this"]

/-- Keyword extraction performed by `add_note`: collect the word-character
tokens of the note, keep those longer than three characters whose lower-casing
is not a stop word, and lower-case the kept tokens (duplicates retained, order
preserved). -/
def extract_keywords (text : String) : List String :=
  ((findTokens text.toList).filter
      (fun w => decide (3 < w.length) &&
        decide (w.map Char.toLower ∉ STOP_WORDS.map String.toList))).map
    (fun w => String.mk (w.map Char.toLower))

/-- C1: for every input text, the keyword extraction used by `add_note` returns
exactly the maximal runs of word characters of the text whose length exceeds 3
and whose lower-casing is not in the stop-list, each lower-cased, in original
order, with duplicates retained. -/
theorem add_note_keyword_extraction (text : String) :
    extract_keywords text =
      ((maximalWordRuns text.toList).filter
          (fun w => decide (3 < w.length) &&
            decide (w.map Char.toLower ∉ STOP_WORDS.map String.toList))).map
        (fun w => String.mk (w.map Char.toLower)) := by
  rw [extract_keywords, findTokens_runs]

/-! ### Data model: stored records, request payloads, store state, errors -/

structure NoteRecord where
  note : String
  keywords : List String
  category : String
  priority : Int
  timestamp : String
deriving DecidableEq

structure MoodRecord where
  text : String
  mood : String
  tip : String
  timestamp : String
deriving DecidableEq

structure TaskRecord where
  title : String
  description : String
  due_date : String
  subject : String
  priority : Int
  status : String
  id : String
  timestamp : String
deriving DecidableEq

structure SessionRecord where
  subject : String
  duration : Int
  goals : List String
  completed_goals : List String
  timestamp : String
deriving DecidableEq

structure Note where
  note : String
  category : String
  priority : Int := 1
deriving DecidableEq

structure Task where
  title : String
  description : String
  due_date : String
  subject : String
  priority : Int
  status : String := "pending"
deriving DecidableEq

structure StudySession where
  subject : String
  duration : Int
  goals : List String
  completed_goals : List String := []
deriving DecidableEq

structure AppState where
  reminders : List NoteRecord
  moods : List MoodRecord
  tasks : List TaskRecord
  study_sessions : List SessionRecord
deriving DecidableEq

def initState : AppState := ⟨[], [], [], []⟩

inductive Err where
  | validation (detail : String)
  | notFound (detail : String)
deriving DecidableEq

def isOkE {α : Type} : Except Err α → Bool
  | .ok _ => true
  | .error _ => false

instance {ε α : Type} [DecidableEq ε] [DecidableEq α] : DecidableEq (Except ε α) := fun x y =>
  match x, y with
  | .ok a, .ok b =>
    if h : a = b then isTrue (by rw [h]) else isFalse (by simp [h])
  | .ok _, .error _ => isFalse (by simp)
  | .error _, .ok _ => isFalse (by simp)
  | .error a, .error b =>
    if h : a = b then isTrue (by rw [h]) else isFalse (by simp [h])

/-- Python `str.strip`: remove leading and trailing whitespace. -/
def pyStrip (s : List Char) : List Char :=
  ((s.dropWhile Char.isWhitespace).reverse.dropWhile Char.isWhitespace).reverse

/-- Python `str.lower`. -/
def lowerStr (s : String) : String := String.mk (s.toList.map Char.toLower)

/-- Python substring test `needle in hay`. -/
def containsSub (hay needle : String) : Bool := decide (needle.toList <:+: hay.toList)

/-! ### Mood classifier (`mood_check`, lines 129-148): fixed thresholds on the
sentiment scores and substring checks on the lowered text. -/

structure MoodResult where
  mood : String
  tip : String
deriving DecidableEq

def classifyMood (polarity subjectivity : ℚ) (text : String) : MoodResult :=
  if polarity > 1/5 then
    { mood := "😊 Happy",
      tip := if subjectivity > 1/2 then
          "Great mood! " ++ STUDY_TIPS_focus.getD 0 ""
        else
          "Excellent! " ++ STUDY_TIPS_motivation.getD 2 "" }
  else if polarity < -(1/5) then
    { mood := "😞 Sad",
      tip := if containsSub (lowerStr text) "tired" || containsSub (lowerStr text) "exhausted" then
          "Take a refreshing break! " ++ STUDY_TIPS_focus.getD 3 ""
        else
          "It's okay to feel down. " ++ STUDY_TIPS_motivation.getD 1 "" }
  else
    { mood := "😐 Neutral", tip := "Stay focused! " ++ STUDY_TIPS_memory.getD 0 "" }

/-! ### Request handlers -/

structure NoteResponse where
  status : String
  keywords : List String
  note : String
  category : String
  priority : Int
deriving DecidableEq

def add_note (st : AppState) (note_data : Note) (now : String) :
    AppState × Except Err NoteResponse :=
  if (pyStrip note_data.note.toList).isEmpty then
    (st, .error (.validation "Note cannot be empty"))
  else if note_data.category ∉ NOTE_CATEGORIES then
    (st, .error (.validation
      ("Invalid category. Choose from: " ++ String.intercalate ", " NOTE_CATEGORIES)))
  else
    let keywords := extract_keywords note_data.note
    let reminder : NoteRecord :=
      { note := note_data.note, keywords := keywords, category := note_data.category,
        priority := note_data.priority, timestamp := now }
    ({ st with reminders := st.reminders ++ [reminder] },
     .ok { status := "Note added ✅", keywords := keywords, note := note_data.note,
           category := note_data.category, priority := note_data.priority })

structure MoodResponse where
  mood : String
  tip : String
  text : String
deriving DecidableEq

def mood_check (st : AppState) (text : String) (polarity subjectivity : ℚ)
    (now : String) : AppState × Except Err MoodResponse :=
  if (pyStrip text.toList).isEmpty then
    (st, .error (.validation "Text cannot be empty"))
  else
    let r := classifyMood polarity subjectivity text
    ({ st with moods := st.moods ++
        [{ text := text, mood := r.mood, tip := r.tip, timestamp := now }] },
     .ok { mood := r.mood, tip := r.tip, text := text })

structure TaskResponse where
  status : String
  task : TaskRecord
deriving DecidableEq

def add_task (st : AppState) (task : Task) (now : String) :
    AppState × Except Err TaskResponse :=
  if task.subject ∉ SUBJECTS then
    (st, .error (.validation
      ("Invalid subject. Choose from: " ++ String.intercalate ", " SUBJECTS)))
  else
    let task_entry : TaskRecord :=
      { title := task.title, description := task.description, due_date := task.due_date,
        subject := task.subject, priority := task.priority, status := task.status,
        id := Nat.repr (st.tasks.length + 1), timestamp := now }
    ({ st with tasks := st.tasks ++ [task_entry] },
     .ok { status := "Task added ✅", task := task_entry })

structure SessionResponse where
  status : String
  tip : String
  subject : String
  duration : Int
  goals : List String
  completed_goals : List String
deriving DecidableEq

def record_study_session (st : AppState) (session : StudySession) (r : Fin 4)
    (now : String) : AppState × Except Err SessionResponse :=
  if session.subject ∉ SUBJECTS then
    (st, .error (.validation
      ("Invalid subject. Choose from: " ++ String.intercalate ", " SUBJECTS)))
  else if session.duration < 5 ∨ session.duration > 480 then
    (st, .error (.validation "Duration must be between 5 and 480 minutes"))
  else
    let entry : SessionRecord :=
      { subject := session.subject, duration := session.duration,
        goals := session.goals, completed_goals := session.completed_goals,
        timestamp := now }
    let tip := if session.duration > 120 then
        STUDY_TIPS_focus.getD 1 ""
      else
        STUDY_TIPS_memory.getD r.val ""
    ({ st with study_sessions := st.study_sessions ++ [entry] },
     .ok { status := "Study session recorded ✅", tip := tip,
           subject := session.subject, duration := session.duration,
           goals := session.goals, completed_goals := session.completed_goals })

structure TipsResponse where
  category : String
  tips : List String
deriving DecidableEq

def studyTipsFor (category : String) : List String :=
  if category = "focus" then STUDY_TIPS_focus
  else if category = "memory" then STUDY_TIPS_memory
  else STUDY_TIPS_motivation

def get_study_tips (st : AppState) (category : String) :
    AppState × Except Err TipsResponse :=
  if category ∉ STUDY_TIPS_keys then
    (st, .error (.validation
      ("Invalid category. Choose from: " ++ String.intercalate ", " STUDY_TIPS_keys)))
  else
    (st, .ok { category := category, tips := studyTipsFor category })

/-- In-place update of the first task whose id matches, returning the new task
list together with the updated record; `none` when no task matches. -/
def updateFirst (task_id new_status : String) : List TaskRecord →
    Option (List TaskRecord × TaskRecord)
  | [] => none
  | t :: rest =>
    if t.id = task_id then
      some (({ t with status := new_status }) :: rest, { t with status := new_status })
    else
      match updateFirst task_id new_status rest with
      | some (l, u) => some (t :: l, u)
      | none => none

structure UpdateResponse where
  message : String
  task : TaskRecord
deriving DecidableEq

def update_task_status (st : AppState) (task_id new_status : String) :
    AppState × Except Err UpdateResponse :=
  if new_status ∉ ["pending", "in-progress", "completed"] then
    (st, .error (.validation "Invalid status"))
  else
    match updateFirst task_id new_status st.tasks with
    | some (ts, t) =>
        ({ st with tasks := ts }, .ok { message := "Task status updated", task := t })
    | none => (st, .error (.notFound "Task not found"))

/-! ### Statistics (`get_study_stats`): read-only scan of the stores.  The
subject breakdown is a Python dict in insertion order, modelled as an
association list with dict get/set semantics.  The completion rate is computed
over the rationals; rounding to two decimals is modelled with `round`. -/

def dictGet (m : List (String × Int)) (k : String) (d : Int) : Int :=
  match m.find? (fun p => p.1 = k) with
  | some p => p.2
  | none => d

def dictHasKey (m : List (String × Int)) (k : String) : Bool :=
  m.any (fun p => p.1 = k)

def dictSet (m : List (String × Int)) (k : String) (v : Int) : List (String × Int) :=
  if dictHasKey m k then
    m.map (fun p => if p.1 = k then (k, v) else p)
  else
    m ++ [(k, v)]

def subjectsBreakdown (sessions : List SessionRecord) : List (String × Int) :=
  sessions.foldl (fun m s => dictSet m s.subject (dictGet m s.subject 0 + s.duration)) []

def round2 (q : ℚ) : ℚ := (round (q * 100) : ℚ) / 100

structure Stats where
  total_study_time_minutes : Int
  subjects_breakdown : List (String × Int)
  task_completion_rate : ℚ
  total_notes : Nat
  positive : Nat
  neutral : Nat
  negative : Nat
deriving DecidableEq

def get_study_stats (st : AppState) : Stats :=
  let total_study_time := (st.study_sessions.map (fun s => s.duration)).sum
  let subjects_studied := subjectsBreakdown st.study_sessions
  let tasks_completed := (st.tasks.filter (fun t => t.status = "completed")).length
  let total_tasks := st.tasks.length
  let completion_rate : ℚ :=
    if total_tasks > 0 then (tasks_completed : ℚ) / (total_tasks : ℚ) * 100 else 0
  { total_study_time_minutes := total_study_time,
    subjects_breakdown := subjects_studied,
    task_completion_rate := round2 completion_rate,
    total_notes := st.reminders.length,
    positive := (st.moods.filter (fun m => containsSub m.mood "Happy")).length,
    neutral := (st.moods.filter (fun m => containsSub m.mood "Neutral")).length,
    negative := (st.moods.filter (fun m => containsSub m.mood "Sad")).length }

structure AllData where
  reminders : List NoteRecord
  mood_logs : List MoodRecord
  tasks : List TaskRecord
  study_sessions : List SessionRecord
  available_subjects : List String
  note_categories : List String
deriving DecidableEq

def all_data (st : AppState) : AllData :=
  { reminders := st.reminders, mood_logs := st.moods, tasks := st.tasks,
    study_sessions := st.study_sessions,
    available_subjects := SUBJECTS, note_categories := NOTE_CATEGORIES }

/-! ### Operational semantics: one step per state-touching request -/

inductive Op where
  | addNote (inp : Note) (now : String)
  | moodCheck (text : String) (polarity subjectivity : ℚ) (now : String)
  | addTask (inp : Task) (now : String)
  | studySession (inp : StudySession) (r : Fin 4) (now : String)
  | updateStatus (task_id new_status : String)

def step (st : AppState) : Op → AppState
  | .addNote inp now => (add_note st inp now).1
  | .moodCheck t p s now => (mood_check st t p s now).1
  | .addTask inp now => (add_task st inp now).1
  | .studySession inp r now => (record_study_session st inp r now).1
  | .updateStatus i s => (update_task_status st i s).1

def opOkB (st : AppState) : Op → Bool
  | .addNote inp now => isOkE (add_note st inp now).2
  | .moodCheck t p s now => isOkE (mood_check st t p s now).2
  | .addTask inp now => isOkE (add_task st inp now).2
  | .studySession inp r now => isOkE (record_study_session st inp r now).2
  | .updateStatus i s => isOkE (update_task_status st i s).2

def runFrom (st : AppState) (ops : List Op) : AppState := ops.foldl step st

def run (ops : List Op) : AppState := runFrom initState ops

def allOkB : AppState → List Op → Bool
  | _, [] => true
  | st, op :: rest => opOkB st op && allOkB (step st op) rest

/-! ### C2: mood classification thresholds -/

/-- C2: for every (polarity, subjectivity, text) the mood classifier used by
`mood_check` decides with strict threshold comparisons: polarity above 0.2
gives the Happy mood with the tip chosen by whether subjectivity exceeds 0.5;
polarity below -0.2 gives the Sad mood with the tip chosen by whether the
lower-cased text contains "tired" or "exhausted"; every other polarity,
including exactly 0.2 and -0.2, gives the Neutral mood with one fixed tip.
The classifier is a pure function of (polarity, subjectivity, text), hence
deterministic. -/
theorem mood_check_threshold_classification (p s : ℚ) (t : String) :
    (1/5 < p →
      classifyMood p s t =
        { mood := "😊 Happy",
          tip := if s > 1/2 then "Great mood! Find a quiet study space"
                 else "Excellent! Study with a friend or study group" })
    ∧ (p < -(1/5) →
      classifyMood p s t =
        { mood := "😞 Sad",
          tip := if containsSub (lowerStr t) "tired" || containsSub (lowerStr t) "exhausted"
                 then "Take a refreshing break! Take regular short breaks"
                 else "It's okay to feel down. Reward yourself after completing tasks" })
    ∧ (-(1/5) ≤ p → p ≤ 1/5 →
      classifyMood p s t =
        { mood := "😐 Neutral",
          tip := "Stay focused! Create mind maps for complex topics" }) := by
  refine ⟨fun h => ?_, fun h => ?_, fun h1 h2 => ?_⟩
  · unfold classifyMood
    rw [if_pos h]
    rfl
  · have hn : ¬(1/5 < p) := by
      intro hcon
      have : (-(1/5) : ℚ) < 1/5 := by norm_num
      linarith
    unfold classifyMood
    rw [if_neg hn, if_pos h]
    rfl
  · have hn1 : ¬(1/5 < p) := not_lt.mpr h2
    have hn2 : ¬(p < -(1/5)) := not_lt.mpr h1
    unfold classifyMood
    rw [if_neg hn1, if_neg hn2]
    rfl

theorem mood_check_threshold_classification_witness :
    classifyMood 1 1 "test" =
      { mood := "😊 Happy", tip := "Great mood! Find a quiet study space" }
    ∧ classifyMood (-1) 0 "so tired" =
      { mood := "😞 Sad", tip := "Take a refreshing break! Take regular short breaks" }
    ∧ classifyMood (1/5) 1 "test" =
      { mood := "😐 Neutral", tip := "Stay focused! Create mind maps for complex topics" } := by
  refine ⟨?_, ?_, ?_⟩
  · have h := (mood_check_threshold_classification 1 1 "test").1 (by norm_num)
    rw [h]
    norm_num
  · have h := (mood_check_threshold_classification (-1) 0 "so tired").2.1 (by norm_num)
    rw [h]
    have hc : containsSub (lowerStr "so tired") "tired" = true := by decide
    simp [hc]
  · exact (mood_check_threshold_classification (1/5) 1 "test").2.2
      (by norm_num) (by norm_num)

/-! ### Decimal representation: `Nat.repr` is injective.  `str(k)` is the
decimal numeral of `k`; we prove injectivity through a most-significant-first
digit list and an evaluation round trip. -/

def natDigits (n : Nat) : List Nat :=
  if n < 10 then [n] else natDigits (n / 10) ++ [n % 10]
termination_by n
decreasing_by exact Nat.div_lt_self (by omega) (by omega)

theorem toDigitsCore_append (b : Nat) :
    ∀ (f n : Nat) (ds : List Char),
      Nat.toDigitsCore b f n ds = Nat.toDigitsCore b f n [] ++ ds := by
  intro f
  induction f with
  | zero => intro n ds; simp [Nat.toDigitsCore]
  | succ f ih =>
    intro n ds
    simp only [Nat.toDigitsCore]
    by_cases h : n / b = 0
    · simp [h]
    · simp only [h, if_false]
      rw [ih (n / b) [Nat.digitChar (n % b)],
        ih (n / b) (Nat.digitChar (n % b) :: ds), List.append_assoc]
      rfl

theorem toDigitsCore_eq_natDigits :
    ∀ (f n : Nat), n < f →
      Nat.toDigitsCore 10 f n [] = (natDigits n).map Nat.digitChar := by
  intro f
  induction f with
  | zero => intro n h; omega
  | succ f ih =>
    intro n h
    simp only [Nat.toDigitsCore]
    by_cases h0 : n / 10 = 0
    · have hlt : n < 10 := by omega
      rw [if_pos h0, natDigits, if_pos hlt, Nat.mod_eq_of_lt hlt]
      rfl
    · have h10 : 10 ≤ n := by
        by_contra hcon
        exact h0 (Nat.div_eq_of_lt (by omega))
      have hdiv : n / 10 < f := by
        have h1 : n / 10 < n := Nat.div_lt_self (by omega) (by omega)
        omega
      rw [if_neg h0, toDigitsCore_append, ih (n / 10) hdiv,
        show natDigits n = natDigits (n / 10) ++ [n % 10] from by
          rw [natDigits, if_neg (by omega)],
        List.map_append]
      rfl

theorem natDigits_eval : ∀ n : Nat, (natDigits n).foldl (fun a d => a * 10 + d) 0 = n := by
  intro n
  induction n using Nat.strong_induction_on with
  | _ n ih =>
    by_cases h : n < 10
    · rw [natDigits, if_pos h]
      simp
    · rw [natDigits, if_neg h, List.foldl_append,
        ih (n / 10) (Nat.div_lt_self (by omega) (by omega))]
      simp only [List.foldl]
      omega

theorem natDigits_injective {a b : Nat} (h : natDigits a = natDigits b) : a = b := by
  rw [← natDigits_eval a, ← natDigits_eval b, h]

theorem natDigits_lt_ten : ∀ n : Nat, ∀ d ∈ natDigits n, d < 10 := by
  intro n
  induction n using Nat.strong_induction_on with
  | _ n ih =>
    by_cases h : n < 10
    · rw [natDigits, if_pos h]
      simpa using h
    · rw [natDigits, if_neg h]
      intro d hd
      rcases List.mem_append.mp hd with h1 | h2
      · exact ih (n / 10) (Nat.div_lt_self (by omega) (by omega)) d h1
      · simp only [List.mem_singleton] at h2
        omega

theorem digitChar_inj_lt_ten :
    ∀ a : Fin 10, ∀ b : Fin 10, Nat.digitChar a.val = Nat.digitChar b.val → a = b := by
  decide

theorem map_digitChar_inj :
    ∀ l1 l2 : List Nat, (∀ d ∈ l1, d < 10) → (∀ d ∈ l2, d < 10) →
      l1.map Nat.digitChar = l2.map Nat.digitChar → l1 = l2 := by
  intro l1
  induction l1 with
  | nil =>
    intro l2 _ _ h
    cases l2 with
    | nil => rfl
    | cons b bs => simp at h
  | cons a as ih =>
    intro l2 h1 h2 h
    cases l2 with
    | nil => simp at h
    | cons b bs =>
      simp only [List.map_cons, List.cons.injEq] at h
      have ha : a < 10 := h1 a (by simp)
      have hb : b < 10 := h2 b (by simp)
      have hab : a = b := by
        have := digitChar_inj_lt_ten ⟨a, ha⟩ ⟨b, hb⟩ h.1
        simpa [Fin.ext_iff] using this
      have htl : as = bs :=
        ih bs (fun d hd => h1 d (by simp [hd])) (fun d hd => h2 d (by simp [hd])) h.2
      rw [hab, htl]

theorem nat_repr_injective : Function.Injective Nat.repr := by
  intro a b h
  have ha : Nat.toDigitsCore 10 (a + 1) a [] = (natDigits a).map Nat.digitChar :=
    toDigitsCore_eq_natDigits (a + 1) a (by omega)
  have hb : Nat.toDigitsCore 10 (b + 1) b [] = (natDigits b).map Nat.digitChar :=
    toDigitsCore_eq_natDigits (b + 1) b (by omega)
  unfold Nat.repr Nat.toDigits at h
  rw [ha, hb] at h
  simp only [List.asString] at h
  have h2 : (natDigits a).map Nat.digitChar = (natDigits b).map Nat.digitChar :=
    congrArg String.data h
  exact natDigits_injective
    (map_digitChar_inj _ _ (natDigits_lt_ten a) (natDigits_lt_ten b) h2)

/-! ### C3: sequential task ids -/

def runTasks (st : AppState) : List (Task × String) → AppState
  | [] => st
  | (t, now) :: rest => runTasks (add_task st t now).1 rest

theorem runTasks_ids (calls : List (Task × String)) :
    ∀ st : AppState, (∀ c ∈ calls, c.1.subject ∈ SUBJECTS) →
      (runTasks st calls).tasks.map (fun t => t.id)
        = st.tasks.map (fun t => t.id)
          ++ (List.range calls.length).map (fun k => Nat.repr (st.tasks.length + k + 1)) := by
  induction calls with
  | nil => intro st _; simp [runTasks]
  | cons c rest ih =>
    intro st hv
    obtain ⟨t, now⟩ := c
    have hsub : t.subject ∈ SUBJECTS := hv (t, now) (by simp)
    have hstep : (add_task st t now).1 =
        { st with tasks := st.tasks ++
            [{ title := t.title, description := t.description, due_date := t.due_date,
               subject := t.subject, priority := t.priority, status := t.status,
               id := Nat.repr (st.tasks.length + 1), timestamp := now }] } := by
      unfold add_task
      rw [if_neg (by simpa using hsub)]
    rw [runTasks, hstep, ih _ (fun d hd => hv d (by simp [hd]))]
    simp only [List.map_append, List.map_cons, List.map_nil, List.length_append,
      List.length_cons, List.length_nil, List.length_range]
    rw [List.append_assoc, List.singleton_append, List.range_succ_eq_map, List.map_cons,
      List.map_map]
    congr 1
    congr 1
    congr 1
    funext k
    simp only [Function.comp_apply]
    congr 1
    omega

/-- C3: for every sequence of N successful `add_task` calls starting from an
empty task store, the k-th call assigns id equal to the decimal string of k
(ids "1", "2", ..., "N" in call order), independent of the contents of the
note, mood, and study-session stores; hence all task ids in the store are
unique. -/
theorem add_task_sequential_ids (st : AppState) (calls : List (Task × String))
    (h0 : st.tasks = []) (hv : ∀ c ∈ calls, c.1.subject ∈ SUBJECTS) :
    (runTasks st calls).tasks.map (fun t => t.id)
      = (List.range calls.length).map (fun k => Nat.repr (k + 1))
    ∧ ((runTasks st calls).tasks.map (fun t => t.id)).Nodup := by
  have h := runTasks_ids calls st hv
  rw [h0] at h
  simp only [List.map_nil, List.length_nil, List.nil_append, Nat.zero_add, zero_add] at h
  constructor
  · exact h
  · rw [h]
    refine List.Nodup.map ?_ (List.nodup_range _)
    intro x y hxy
    have := nat_repr_injective hxy
    omega

theorem add_task_sequential_ids_witness :
    (runTasks
        { initState with moods := [{ text := "m", mood := "😐 Neutral", tip := "t", timestamp := "s" }] }
        [(⟨"A", "dA", "2025-01-01", "Mathematics", 1, "pending"⟩, "t1"),
         (⟨"B", "dB", "2025-01-02", "Physics", 2, "pending"⟩, "t2")]).tasks.map (fun t => t.id)
      = ["1", "2"] := by
  have h := add_task_sequential_ids
    { initState with moods := [{ text := "m", mood := "😐 Neutral", tip := "t", timestamp := "s" }] }
    [(⟨"A", "dA", "2025-01-01", "Mathematics", 1, "pending"⟩, "t1"),
     (⟨"B", "dB", "2025-01-02", "Physics", 2, "pending"⟩, "t2")]
    rfl (by decide)
  rw [h.1]
  decide

/-! ### C4: handlers are atomic -/

/-- C4: every handler either fully fails, leaving all four stores exactly as
they were, or fully succeeds, in which case the mutation happens (the handler's
own store is extended by exactly one appended record and the other stores are
untouched) and the response is returned.  `get_study_tips` never touches the
state; for `update_task_status` success replaces the task list by the updated
one. -/
theorem handlers_atomic :
    (∀ (st : AppState) (inp : Note) (now : String),
      (isOkE (add_note st inp now).2 = false → (add_note st inp now).1 = st)
      ∧ (isOkE (add_note st inp now).2 = true →
          ∃ r, (add_note st inp now).1 = { st with reminders := st.reminders ++ [r] }))
    ∧ (∀ (st : AppState) (t : String) (p s : ℚ) (now : String),
      (isOkE (mood_check st t p s now).2 = false → (mood_check st t p s now).1 = st)
      ∧ (isOkE (mood_check st t p s now).2 = true →
          ∃ m, (mood_check st t p s now).1 = { st with moods := st.moods ++ [m] }))
    ∧ (∀ (st : AppState) (inp : Task) (now : String),
      (isOkE (add_task st inp now).2 = false → (add_task st inp now).1 = st)
      ∧ (isOkE (add_task st inp now).2 = true →
          ∃ t, (add_task st inp now).1 = { st with tasks := st.tasks ++ [t] }))
    ∧ (∀ (st : AppState) (inp : StudySession) (r : Fin 4) (now : String),
      (isOkE (record_study_session st inp r now).2 = false →
          (record_study_session st inp r now).1 = st)
      ∧ (isOkE (record_study_session st inp r now).2 = true →
          ∃ sess, (record_study_session st inp r now).1 =
            { st with study_sessions := st.study_sessions ++ [sess] }))
    ∧ (∀ (st : AppState) (cat : String), (get_study_tips st cat).1 = st)
    ∧ (∀ (st : AppState) (i s : String),
      (isOkE (update_task_status st i s).2 = false → (update_task_status st i s).1 = st)
      ∧ (isOkE (update_task_status st i s).2 = true →
          ∃ ts u, updateFirst i s st.tasks = some (ts, u)
            ∧ (update_task_status st i s).1 = { st with tasks := ts })) := by
  refine ⟨fun st inp now => ?_, fun st t p s now => ?_, fun st inp now => ?_,
    fun st inp r now => ?_, fun st cat => ?_, fun st i s => ?_⟩
  · unfold add_note
    split_ifs <;> simp [isOkE]
  · unfold mood_check
    split_ifs <;> simp [isOkE]
  · unfold add_task
    split_ifs <;> simp [isOkE]
  · unfold record_study_session
    split_ifs <;> simp [isOkE]
  · unfold get_study_tips
    split_ifs <;> simp
  · unfold update_task_status
    by_cases h1 : s ∈ ["pending", "in-progress", "completed"]
    · rw [if_neg (not_not_intro h1)]
      cases hEq : updateFirst i s st.tasks with
      | none => simp [isOkE]
      | some p =>
        obtain ⟨ts, u⟩ := p
        exact ⟨fun hcon => absurd hcon (by simp [isOkE]), fun _ => ⟨ts, u, rfl, rfl⟩⟩
    · rw [if_pos h1]
      simp [isOkE]

theorem handlers_atomic_witness :
    (add_note initState { note := " ", category := "Homework" } "t").1 = initState
    ∧ (update_task_status initState "1" "completed").1 = initState := by
  constructor
  · exact (handlers_atomic.1 initState { note := " ", category := "Homework" } "t").1
      (by decide)
  · exact (handlers_atomic.2.2.2.2.2 initState "1" "completed").1 (by decide)

/-! ### C5: frame condition of `update_task_status` -/

theorem updateFirst_none (task_id s : String) :
    ∀ ts : List TaskRecord, (∀ t ∈ ts, t.id ≠ task_id) →
      updateFirst task_id s ts = none := by
  intro ts
  induction ts with
  | nil => intro _; rfl
  | cons t rest ih =>
    intro h
    unfold updateFirst
    rw [if_neg (h t (by simp)), ih (fun d hd => h d (by simp [hd]))]

theorem updateFirst_found (task_id s : String) :
    ∀ (ts : List TaskRecord) (i : Nat) (hi : i < ts.length),
      (ts[i]).id = task_id →
      (∀ j (hj : j < ts.length), j < i → (ts[j]).id ≠ task_id) →
      updateFirst task_id s ts =
        some (ts.set i { ts[i] with status := s }, { ts[i] with status := s }) := by
  intro ts
  induction ts with
  | nil =>
    intro i hi
    simp at hi
  | cons t rest ih =>
    intro i hi hid hfirst
    cases i with
    | zero =>
      simp only [List.getElem_cons_zero] at hid
      unfold updateFirst
      rw [if_pos hid]
      rfl
    | succ k =>
      have h0 : t.id ≠ task_id := by
        have := hfirst 0 (by simp) (by omega)
        simpa using this
      have hk : k < rest.length := by
        simpa using hi
      have hidk : (rest[k]).id = task_id := by
        simpa using hid
      have hfirstk : ∀ j (hj : j < rest.length), j < k → (rest[j]).id ≠ task_id := by
        intro j hj hjk
        have := hfirst (j + 1) (by simpa using hj) (by omega)
        simpa using this
      unfold updateFirst
      rw [if_neg h0, ih k hk hidk hfirstk]
      simp

/-- C5: for every store state and valid new status, `update_task_status` on an
id present in the task store mutates only the status field of the first task
whose id matches (leaving that task's other fields, all other tasks, and the
other three stores unchanged) and returns the updated task; on an id not
present it fails with a not-found error and changes nothing. -/
theorem update_task_status_frame (st : AppState) (task_id new_status : String)
    (hs : new_status ∈ ["pending", "in-progress", "completed"]) :
    (∀ i (hi : i < st.tasks.length), (st.tasks[i]).id = task_id →
      (∀ j (hj : j < st.tasks.length), j < i → (st.tasks[j]).id ≠ task_id) →
      update_task_status st task_id new_status =
        ({ st with tasks := st.tasks.set i { st.tasks[i] with status := new_status } },
         .ok { message := "Task status updated",
               task := { st.tasks[i] with status := new_status } }))
    ∧ ((∀ t ∈ st.tasks, t.id ≠ task_id) →
      update_task_status st task_id new_status = (st, .error (.notFound "Task not found"))) := by
  constructor
  · intro i hi hid hfirst
    unfold update_task_status
    rw [if_neg (not_not_intro hs), updateFirst_found task_id new_status st.tasks i hi hid hfirst]
  · intro h
    unfold update_task_status
    rw [if_neg (not_not_intro hs), updateFirst_none task_id new_status st.tasks h]

def taskW : TaskRecord :=
  { title := "T", description := "D", due_date := "2025-01-01", subject := "Mathematics",
    priority := 1, status := "pending", id := "1", timestamp := "t0" }

def stW : AppState := { initState with tasks := [taskW] }

theorem update_task_status_frame_witness :
    update_task_status stW "1" "completed" =
      ({ stW with tasks := [{ taskW with status := "completed" }] },
       .ok { message := "Task status updated", task := { taskW with status := "completed" } })
    ∧ update_task_status stW "999" "completed" =
      (stW, .error (.notFound "Task not found")) := by
  constructor
  · have h := (update_task_status_frame stW "1" "completed" (by decide)).1 0 (by decide)
      (by decide) (by omega)
    rw [h]
    rfl
  · exact (update_task_status_frame stW "999" "completed" (by decide)).2 (by decide)

/-! ### C7: `record_study_session` validation and tip selection -/

/-- C7: `record_study_session` rejects with a validation error exactly when the
subject is not in `SUBJECTS` or the duration is outside [5,480] (both bounds
accepted); on success it appends the session record and returns a tip that is
the fixed Pomodoro tip whenever the duration exceeds 120 minutes and otherwise
is a member of the fixed four-element memory-tip list (the injected random
index picks the element, so only membership is asserted). -/
theorem record_study_session_spec (st : AppState) (session : StudySession)
    (r : Fin 4) (now : String) :
    ((∃ d, (record_study_session st session r now).2 = .error (.validation d)) ↔
      session.subject ∉ SUBJECTS ∨ session.duration < 5 ∨ session.duration > 480)
    ∧ (∀ resp : SessionResponse, (record_study_session st session r now).2 = .ok resp →
        (record_study_session st session r now).1 =
          { st with study_sessions := st.study_sessions ++
              [{ subject := session.subject, duration := session.duration,
                 goals := session.goals, completed_goals := session.completed_goals,
                 timestamp := now }] }
        ∧ (session.duration > 120 →
            resp.tip = "Use the Pomodoro Technique (25 min study, 5 min break)")
        ∧ (session.duration ≤ 120 → resp.tip ∈ STUDY_TIPS_memory)) := by
  by_cases h1 : session.subject ∈ SUBJECTS
  · by_cases h2 : session.duration < 5 ∨ session.duration > 480
    · have hred : record_study_session st session r now =
          (st, .error (.validation "Duration must be between 5 and 480 minutes")) := by
        unfold record_study_session
        rw [if_neg (not_not_intro h1), if_pos h2]
      rw [hred]
      refine ⟨⟨fun _ => Or.inr h2, fun _ => ⟨_, rfl⟩⟩, fun resp hresp => ?_⟩
      simp at hresp
    · have hred : record_study_session st session r now =
          ({ st with study_sessions := st.study_sessions ++
              [{ subject := session.subject, duration := session.duration,
                 goals := session.goals, completed_goals := session.completed_goals,
                 timestamp := now }] },
           .ok { status := "Study session recorded ✅",
                 tip := if session.duration > 120 then STUDY_TIPS_focus.getD 1 ""
                        else STUDY_TIPS_memory.getD r.val "",
                 subject := session.subject, duration := session.duration,
                 goals := session.goals, completed_goals := session.completed_goals }) := by
        unfold record_study_session
        rw [if_neg (not_not_intro h1), if_neg h2]
      rw [hred]
      constructor
      · constructor
        · rintro ⟨d, hd⟩
          simp at hd
        · intro hcon
          rcases hcon with hc | hc | hc
          · exact absurd h1 hc
          · exact absurd (Or.inl hc) h2
          · exact absurd (Or.inr hc) h2
      · intro resp hresp
        simp only [Except.ok.injEq] at hresp
        refine ⟨rfl, fun hdur => ?_, fun hdur => ?_⟩
        · rw [← hresp]
          show (if session.duration > 120 then STUDY_TIPS_focus.getD 1 ""
                else STUDY_TIPS_memory.getD r.val "") = _
          rw [if_pos hdur]
          rfl
        · rw [← hresp]
          show (if session.duration > 120 then STUDY_TIPS_focus.getD 1 ""
                else STUDY_TIPS_memory.getD r.val "") ∈ STUDY_TIPS_memory
          have hno : ¬(session.duration > 120) := by omega
          rw [if_neg hno]
          have hmem : ∀ k : Nat, k < 4 → STUDY_TIPS_memory.getD k "" ∈ STUDY_TIPS_memory := by
            intro k hk
            interval_cases k <;> decide
          exact hmem r.val r.isLt
  · have hred : record_study_session st session r now =
        (st, .error (.validation
          ("Invalid subject. Choose from: " ++ String.intercalate ", " SUBJECTS))) := by
      unfold record_study_session
      rw [if_pos h1]
    rw [hred]
    refine ⟨⟨fun _ => Or.inl h1, fun _ => ⟨_, rfl⟩⟩, fun resp hresp => ?_⟩
    simp at hresp

theorem record_study_session_spec_witness :
    (record_study_session initState ⟨"Mathematics", 150, [], []⟩ ⟨0, by omega⟩ "t").1 =
      { initState with study_sessions :=
          [{ subject := "Mathematics", duration := 150, goals := [],
             completed_goals := [], timestamp := "t" }] }
    ∧ (record_study_session initState ⟨"Mathematics", 150, [], []⟩ ⟨0, by omega⟩ "t").2 =
      .ok { status := "Study session recorded ✅",
            tip := "Use the Pomodoro Technique (25 min study, 5 min break)",
            subject := "Mathematics", duration := 150, goals := [], completed_goals := [] } := by
  have h := (record_study_session_spec initState ⟨"Mathematics", 150, [], []⟩
      ⟨0, by omega⟩ "t").2
    { status := "Study session recorded ✅",
      tip := "Use the Pomodoro Technique (25 min study, 5 min break)",
      subject := "Mathematics", duration := 150, goals := [], completed_goals := [] }
    (by decide)
  exact ⟨h.1, by decide⟩


/-! ### C6: `get_study_stats` -/

def subjSum (sessions : List SessionRecord) (k : String) : Int :=
  ((sessions.filter (fun s => s.subject = k)).map (fun s => s.duration)).sum

theorem find?_replace_ne (k k' : String) (v : Int) (h : k' ≠ k) (m : List (String × Int)) :
    (m.map (fun p => if p.1 = k then (k, v) else p)).find? (fun p => p.1 = k')
      = m.find? (fun p => p.1 = k') := by
  induction m with
  | nil => rfl
  | cons p rest ih =>
    by_cases hb : p.1 = k
    · simp only [List.map_cons, if_pos hb]
      rw [List.find?_cons_of_neg _ (by simpa using Ne.symm h),
        List.find?_cons_of_neg _ (by simp [hb, Ne.symm h]), ih]
    · simp only [List.map_cons, if_neg hb]
      by_cases hp : p.1 = k'
      · rw [List.find?_cons_of_pos _ (by simpa using hp),
          List.find?_cons_of_pos _ (by simpa using hp)]
      · rw [List.find?_cons_of_neg _ (by simpa using hp),
          List.find?_cons_of_neg _ (by simpa using hp), ih]

theorem find?_replace_self (k : String) (v : Int) :
    ∀ m : List (String × Int), dictHasKey m k = true →
      (m.map (fun p => if p.1 = k then (k, v) else p)).find? (fun p => p.1 = k)
        = some (k, v) := by
  intro m
  induction m with
  | nil => intro hk; simp [dictHasKey] at hk
  | cons p rest ih =>
    intro hk
    by_cases hb : p.1 = k
    · simp only [List.map_cons, if_pos hb]
      rw [List.find?_cons_of_pos _ (by simp)]
    · simp only [List.map_cons, if_neg hb]
      rw [List.find?_cons_of_neg _ (by simpa using hb)]
      apply ih
      simp only [dictHasKey, List.any_cons, Bool.or_eq_true] at hk
      rcases hk with hk | hk
      · exact absurd (by simpa using hk) hb
      · simpa [dictHasKey] using hk

theorem find?_append_single_self (k : String) (v : Int) :
    ∀ m : List (String × Int), dictHasKey m k = false →
      (m ++ [(k, v)]).find? (fun p => p.1 = k) = some (k, v) := by
  intro m
  induction m with
  | nil =>
    intro _
    simp only [List.nil_append]
    rw [List.find?_cons_of_pos _ (by simp)]
  | cons p rest ih =>
    intro hk
    simp only [dictHasKey, List.any_cons, Bool.or_eq_false_iff] at hk
    rw [List.cons_append, List.find?_cons_of_neg _ (by simpa using hk.1)]
    apply ih
    simpa [dictHasKey] using hk.2

theorem find?_append_single_ne (k k' : String) (v : Int) (h : k' ≠ k)
    (m : List (String × Int)) :
    (m ++ [(k, v)]).find? (fun p => p.1 = k') = m.find? (fun p => p.1 = k') := by
  induction m with
  | nil =>
    simp only [List.nil_append]
    rw [List.find?_cons_of_neg _ (by simpa using Ne.symm h)]
  | cons p rest ih =>
    rw [List.cons_append]
    by_cases hp : p.1 = k'
    · rw [List.find?_cons_of_pos _ (by simpa using hp),
        List.find?_cons_of_pos _ (by simpa using hp)]
    · rw [List.find?_cons_of_neg _ (by simpa using hp),
        List.find?_cons_of_neg _ (by simpa using hp), ih]

theorem dictGet_set_self (k : String) (v : Int) (m : List (String × Int)) :
    dictGet (dictSet m k v) k 0 = v := by
  unfold dictSet
  by_cases hk : dictHasKey m k = true
  · rw [if_pos hk]
    unfold dictGet
    rw [find?_replace_self k v m hk]
  · rw [if_neg hk]
    unfold dictGet
    rw [find?_append_single_self k v m (by simpa using hk)]

theorem dictGet_set_other (k k' : String) (v : Int) (h : k' ≠ k)
    (m : List (String × Int)) :
    dictGet (dictSet m k v) k' 0 = dictGet m k' 0 := by
  unfold dictSet
  by_cases hk : dictHasKey m k = true
  · rw [if_pos hk]
    unfold dictGet
    rw [find?_replace_ne k k' v h m]
  · rw [if_neg hk]
    unfold dictGet
    rw [find?_append_single_ne k k' v h m]

theorem any_replace_ne (k k' : String) (v : Int) (h : k' ≠ k)
    (m : List (String × Int)) :
    (m.map (fun p => if p.1 = k then (k, v) else p)).any (fun p => p.1 = k')
      = m.any (fun p => p.1 = k') := by
  induction m with
  | nil => rfl
  | cons p rest ih =>
    by_cases hb : p.1 = k
    · simp only [List.map_cons, if_pos hb, List.any_cons, ih]
      have h1 : (decide (k = k')) = false := by simp [Ne.symm h]
      have h2 : (decide (p.1 = k')) = false := by simp [hb, Ne.symm h]
      rw [h1, h2]
    · simp only [List.map_cons, if_neg hb, List.any_cons, ih]

theorem dictHasKey_set (k k' : String) (v : Int) (m : List (String × Int)) :
    dictHasKey (dictSet m k v) k' = (dictHasKey m k' || decide (k' = k)) := by
  unfold dictSet
  by_cases hk : dictHasKey m k = true
  · rw [if_pos hk]
    by_cases hkk : k' = k
    · subst hkk
      unfold dictHasKey at hk ⊢
      obtain ⟨p, hp, hpk⟩ := List.any_eq_true.mp hk
      rw [List.any_eq_true.mpr ⟨(k', v), List.mem_map.mpr ⟨p, hp, by simp [by simpa using hpk]⟩,
        by simp⟩]
      simp
    · unfold dictHasKey
      rw [any_replace_ne k k' v hkk m]
      simp [hkk]
  · rw [if_neg hk]
    unfold dictHasKey
    rw [List.any_append]
    simp [List.any_cons, eq_comm]

theorem breakdown_get (k : String) :
    ∀ (sessions : List SessionRecord) (m : List (String × Int)),
      dictGet (sessions.foldl
          (fun m s => dictSet m s.subject (dictGet m s.subject 0 + s.duration)) m) k 0
        = dictGet m k 0 + subjSum sessions k := by
  intro sessions
  induction sessions with
  | nil => intro m; simp [subjSum]
  | cons s rest ih =>
    intro m
    rw [List.foldl_cons, ih]
    by_cases hs : s.subject = k
    · have hss : subjSum (s :: rest) k = s.duration + subjSum rest k := by
        simp [subjSum, List.filter_cons, hs]
      rw [hss, hs, dictGet_set_self]
      omega
    · have hss : subjSum (s :: rest) k = subjSum rest k := by
        simp [subjSum, List.filter_cons, hs]
      rw [hss, dictGet_set_other s.subject k _ (fun hc => hs hc.symm)]

theorem breakdown_hasKey (k : String) :
    ∀ (sessions : List SessionRecord) (m : List (String × Int)),
      dictHasKey (sessions.foldl
          (fun m s => dictSet m s.subject (dictGet m s.subject 0 + s.duration)) m) k
        = (dictHasKey m k || sessions.any (fun s => s.subject = k)) := by
  intro sessions
  induction sessions with
  | nil => intro m; simp
  | cons s rest ih =>
    intro m
    rw [List.foldl_cons, ih, dictHasKey_set]
    by_cases hs : s.subject = k
    · simp [hs, List.any_cons]
    · have hk : ¬(k = s.subject) := fun hc => hs hc.symm
      simp [hs, hk, List.any_cons]

/-- C6: for every store state, `get_study_stats` returns the sum of all
session durations as the total study time; a subjects breakdown whose keys are
exactly the subjects with at least one session, each mapped to its summed
duration; a completion rate of 100 times the completed-task count divided by
the task count rounded to two decimals, and 0 when there are no tasks; and
the note-store size as the note total.  The handler only reads the state (its
type takes the state and returns only statistics). -/
theorem get_study_stats_correct (st : AppState) :
    (get_study_stats st).total_study_time_minutes
        = (st.study_sessions.map (fun s => s.duration)).sum
    ∧ (∀ subj : String,
        (dictHasKey (get_study_stats st).subjects_breakdown subj = true
          ↔ subj ∈ st.study_sessions.map (fun s => s.subject))
        ∧ dictGet (get_study_stats st).subjects_breakdown subj 0
            = subjSum st.study_sessions subj)
    ∧ (get_study_stats st).task_completion_rate
        = (if st.tasks.length = 0 then 0
           else round2 (((st.tasks.countP (fun t => t.status = "completed") : ℚ)
              / (st.tasks.length : ℚ)) * 100))
    ∧ (get_study_stats st).total_notes = st.reminders.length := by
  refine ⟨rfl, fun subj => ⟨?_, ?_⟩, ?_, rfl⟩
  · show dictHasKey (subjectsBreakdown st.study_sessions) subj = true ↔ _
    unfold subjectsBreakdown
    rw [breakdown_hasKey subj st.study_sessions []]
    simp [dictHasKey, List.any_eq_true, List.mem_map]
  · show dictGet (subjectsBreakdown st.study_sessions) subj 0 = _
    unfold subjectsBreakdown
    rw [breakdown_get subj st.study_sessions []]
    simp [dictGet]
  · show round2 (if st.tasks.length > 0
        then ((st.tasks.filter (fun t => t.status = "completed")).length : ℚ)
          / (st.tasks.length : ℚ) * 100 else 0) = _
    by_cases h : st.tasks.length = 0
    · rw [if_pos h, if_neg (by omega)]
      simp [round2]
    · rw [if_neg h, if_pos (by omega), List.countP_eq_length_filter]

/-! ### Per-handler reduction lemmas: the exact result on valid input, the
exact error on invalid input, and single-field frame facts -/

def mkNoteRec (inp : Note) (now : String) : NoteRecord :=
  { note := inp.note, keywords := extract_keywords inp.note, category := inp.category,
    priority := inp.priority, timestamp := now }

def mkMoodRec (tx : String) (p s : ℚ) (now : String) : MoodRecord :=
  { text := tx, mood := (classifyMood p s tx).mood, tip := (classifyMood p s tx).tip,
    timestamp := now }

def mkSessionRec (inp : StudySession) (now : String) : SessionRecord :=
  { subject := inp.subject, duration := inp.duration, goals := inp.goals,
    completed_goals := inp.completed_goals, timestamp := now }

def mkTaskRec (inp : Task) (now : String) (n : Nat) : TaskRecord :=
  { title := inp.title, description := inp.description, due_date := inp.due_date,
    subject := inp.subject, priority := inp.priority, status := inp.status,
    id := Nat.repr n, timestamp := now }

theorem add_note_ok (st : AppState) (inp : Note) (now : String)
    (h : isOkE (add_note st inp now).2 = true) :
    (add_note st inp now).1 = { st with reminders := st.reminders ++ [mkNoteRec inp now] } := by
  unfold add_note at h ⊢
  split_ifs at h ⊢ <;> first | rfl | simp [isOkE] at h

theorem mood_check_ok (st : AppState) (tx : String) (p s : ℚ) (now : String)
    (h : isOkE (mood_check st tx p s now).2 = true) :
    (mood_check st tx p s now).1 = { st with moods := st.moods ++ [mkMoodRec tx p s now] } := by
  unfold mood_check at h ⊢
  split_ifs at h ⊢ <;> first | rfl | simp [isOkE] at h

theorem add_task_red (st : AppState) (inp : Task) (now : String)
    (h : inp.subject ∈ SUBJECTS) :
    add_task st inp now =
      ({ st with tasks := st.tasks ++ [mkTaskRec inp now (st.tasks.length + 1)] },
       .ok { status := "Task added ✅", task := mkTaskRec inp now (st.tasks.length + 1) }) := by
  unfold add_task
  rw [if_neg (not_not_intro h)]
  rfl

theorem add_task_err (st : AppState) (inp : Task) (now : String)
    (h : inp.subject ∉ SUBJECTS) :
    add_task st inp now =
      (st, .error (.validation
        ("Invalid subject. Choose from: " ++ String.intercalate ", " SUBJECTS))) := by
  unfold add_task
  rw [if_pos h]

theorem add_task_ok_subject (st : AppState) (inp : Task) (now : String)
    (h : isOkE (add_task st inp now).2 = true) : inp.subject ∈ SUBJECTS := by
  by_cases h1 : inp.subject ∈ SUBJECTS
  · exact h1
  · rw [add_task_err st inp now h1] at h
    simp [isOkE] at h

theorem session_ok (st : AppState) (inp : StudySession) (r : Fin 4) (now : String)
    (h : isOkE (record_study_session st inp r now).2 = true) :
    (record_study_session st inp r now).1 =
      { st with study_sessions := st.study_sessions ++ [mkSessionRec inp now] } := by
  unfold record_study_session at h ⊢
  split_ifs at h ⊢ <;> first | rfl | simp [isOkE] at h

theorem add_note_moods (st : AppState) (inp : Note) (now : String) :
    (add_note st inp now).1.moods = st.moods := by
  unfold add_note
  split_ifs <;> rfl

theorem add_note_tasks (st : AppState) (inp : Note) (now : String) :
    (add_note st inp now).1.tasks = st.tasks := by
  unfold add_note
  split_ifs <;> rfl

theorem mood_check_tasks (st : AppState) (tx : String) (p s : ℚ) (now : String) :
    (mood_check st tx p s now).1.tasks = st.tasks := by
  unfold mood_check
  split_ifs <;> rfl

theorem add_task_moods (st : AppState) (inp : Task) (now : String) :
    (add_task st inp now).1.moods = st.moods := by
  unfold add_task
  split_ifs <;> rfl

theorem session_moods (st : AppState) (inp : StudySession) (r : Fin 4) (now : String) :
    (record_study_session st inp r now).1.moods = st.moods := by
  unfold record_study_session
  split_ifs <;> rfl

theorem session_tasks (st : AppState) (inp : StudySession) (r : Fin 4) (now : String) :
    (record_study_session st inp r now).1.tasks = st.tasks := by
  unfold record_study_session
  split_ifs <;> rfl

theorem update_moods (st : AppState) (i s : String) :
    (update_task_status st i s).1.moods = st.moods := by
  unfold update_task_status
  by_cases h1 : s ∈ ["pending", "in-progress", "completed"]
  · rw [if_neg (not_not_intro h1)]
    cases hEq : updateFirst i s st.tasks with
    | none => rfl
    | some p =>
      obtain ⟨l, u⟩ := p
      rfl
  · rw [if_pos h1]

theorem add_task_mem_tasks (st : AppState) (inp : Task) (now : String) :
    ∀ t ∈ (add_task st inp now).1.tasks, t ∈ st.tasks ∨ t.status = inp.status := by
  by_cases h1 : inp.subject ∈ SUBJECTS
  · rw [add_task_red st inp now h1]
    intro t ht
    rcases List.mem_append.mp ht with h | h
    · exact Or.inl h
    · right
      simp only [List.mem_singleton] at h
      rw [h]
      rfl
  · rw [add_task_err st inp now h1]
    exact fun t ht => Or.inl ht

theorem updateFirst_mem (i s : String) :
    ∀ (ts l : List TaskRecord) (u : TaskRecord),
      updateFirst i s ts = some (l, u) → ∀ t ∈ l, t ∈ ts ∨ t.status = s := by
  intro ts
  induction ts with
  | nil => intro l u h; simp [updateFirst] at h
  | cons hd rest ih =>
    intro l u h
    unfold updateFirst at h
    by_cases hb : hd.id = i
    · rw [if_pos hb] at h
      simp only [Option.some.injEq, Prod.mk.injEq] at h
      intro t ht
      rw [← h.1] at ht
      rcases List.mem_cons.mp ht with h1 | h1
      · right; rw [h1]
      · exact Or.inl (List.mem_cons_of_mem _ h1)
    · rw [if_neg hb] at h
      cases hEq : updateFirst i s rest with
      | none => rw [hEq] at h; simp at h
      | some p =>
        obtain ⟨l2, u2⟩ := p
        rw [hEq] at h
        simp only [Option.some.injEq, Prod.mk.injEq] at h
        intro t ht
        rw [← h.1] at ht
        rcases List.mem_cons.mp ht with h1 | h1
        · exact Or.inl (by rw [h1]; exact List.mem_cons_self _ _)
        · rcases ih l2 u2 hEq t h1 with h2 | h2
          · exact Or.inl (List.mem_cons_of_mem _ h2)
          · exact Or.inr h2

theorem update_mem_tasks (st : AppState) (i s : String) :
    ∀ t ∈ (update_task_status st i s).1.tasks,
      t ∈ st.tasks ∨ (t.status = s ∧ s ∈ ["pending", "in-progress", "completed"]) := by
  unfold update_task_status
  by_cases h1 : s ∈ ["pending", "in-progress", "completed"]
  · rw [if_neg (not_not_intro h1)]
    cases hEq : updateFirst i s st.tasks with
    | none => exact fun t ht => Or.inl ht
    | some p =>
      obtain ⟨l, u⟩ := p
      intro t ht
      rcases updateFirst_mem i s st.tasks l u hEq t ht with h2 | h2
      · exact Or.inl h2
      · exact Or.inr ⟨h2, h1⟩
  · rw [if_pos h1]
    exact fun t ht => Or.inl ht

theorem mood_check_mem_moods (st : AppState) (tx : String) (p s : ℚ) (now : String) :
    ∀ m ∈ (mood_check st tx p s now).1.moods,
      m ∈ st.moods ∨ m.mood = (classifyMood p s tx).mood := by
  unfold mood_check
  split_ifs
  · exact fun m hm => Or.inl hm
  · intro m hm
    rcases List.mem_append.mp hm with h | h
    · exact Or.inl h
    · right
      simp only [List.mem_singleton] at h
      rw [h]

/-! ### C8: task statuses.  The request model defaults the status to
"pending" but `add_task` performs no validation on it, so a caller-supplied
status outside the enumeration is stored as-is; the invariant holds once every
`add_task` payload carries one of the three enumeration values. -/

def bogusTaskInput : Task :=
  { title := "T", description := "D", due_date := "2025-01-01",
    subject := "Mathematics", priority := 1, status := "bogus" }

/-- C8 counterexample: a single successful `add_task` call whose payload
carries the status "bogus" reaches a store state containing a task whose
status is none of "pending", "in-progress", "completed". -/
theorem task_status_enum_counterexample :
    opOkB initState (Op.addTask bogusTaskInput "t") = true
    ∧ ((run [Op.addTask bogusTaskInput "t"]).tasks.map (fun t => t.status)) = ["bogus"]
    ∧ "bogus" ∉ ["pending", "in-progress", "completed"] := by
  decide

def opTaskStatusOk : Op → Prop
  | .addTask inp _ => inp.status ∈ ["pending", "in-progress", "completed"]
  | _ => True

instance (op : Op) : Decidable (opTaskStatusOk op) := by
  cases op <;> simp only [opTaskStatusOk] <;> infer_instance

/-- C8 (amended): for every reachable store state whose `add_task` calls all
supplied a status among "pending", "in-progress", "completed" (the payload
default being "pending"), every task in the task store has its status in that
set: creation stores the payload status and `update_task_status` only ever
writes one of the three enumeration values. -/
theorem task_status_enum_invariant (ops : List Op)
    (h : ∀ op ∈ ops, opTaskStatusOk op) :
    ∀ t ∈ (run ops).tasks, t.status ∈ ["pending", "in-progress", "completed"] := by
  suffices hgen : ∀ (l : List Op) (st : AppState), (∀ op ∈ l, opTaskStatusOk op) →
      (∀ t ∈ st.tasks, t.status ∈ ["pending", "in-progress", "completed"]) →
      ∀ t ∈ (runFrom st l).tasks, t.status ∈ ["pending", "in-progress", "completed"] by
    exact hgen ops initState h (by simp [initState])
  intro l
  induction l with
  | nil => intro st _ hinv; exact hinv
  | cons op rest ih =>
    intro st hl hinv
    have hrest : ∀ o ∈ rest, opTaskStatusOk o := fun o ho => hl o (by simp [ho])
    have hstep : ∀ t ∈ (step st op).tasks,
        t.status ∈ ["pending", "in-progress", "completed"] := by
      cases op with
      | addNote inp now =>
        rw [step, add_note_tasks]
        exact hinv
      | moodCheck tx p s now =>
        rw [step, mood_check_tasks]
        exact hinv
      | addTask inp now =>
        intro t ht
        rcases add_task_mem_tasks st inp now t ht with h1 | h1
        · exact hinv t h1
        · rw [h1]
          exact hl (.addTask inp now) (by simp)
      | studySession inp r now =>
        rw [step, session_tasks]
        exact hinv
      | updateStatus i s =>
        intro t ht
        rcases update_mem_tasks st i s t ht with h1 | h1
        · exact hinv t h1
        · rw [h1.1]
          exact h1.2
    exact ih (step st op) hrest hstep

theorem task_status_enum_invariant_witness :
    ({ title := "T", description := "D", due_date := "2025-01-01", subject := "Mathematics",
       priority := 1, status := "completed", id := "1", timestamp := "t" } : TaskRecord).status
      ∈ ["pending", "in-progress", "completed"] := by
  refine task_status_enum_invariant
    [Op.addTask ⟨"T", "D", "2025-01-01", "Mathematics", 1, "pending"⟩ "t",
     Op.updateStatus "1" "completed"]
    (by decide) _ ?_
  decide

/-! ### C9: `all_data` round trip over mixed add operations -/

def isAddOp : Op → Bool
  | .updateStatus _ _ => false
  | _ => true

def expNotes : List Op → List NoteRecord
  | [] => []
  | .addNote inp now :: rest => mkNoteRec inp now :: expNotes rest
  | _ :: rest => expNotes rest

def expMoods : List Op → List MoodRecord
  | [] => []
  | .moodCheck tx p s now :: rest => mkMoodRec tx p s now :: expMoods rest
  | _ :: rest => expMoods rest

def expSessions : List Op → List SessionRecord
  | [] => []
  | .studySession inp _ now :: rest => mkSessionRec inp now :: expSessions rest
  | _ :: rest => expSessions rest

def expTasks : Nat → List Op → List TaskRecord
  | _, [] => []
  | n, .addTask inp now :: rest => mkTaskRec inp now (n + 1) :: expTasks (n + 1) rest
  | n, _ :: rest => expTasks n rest

theorem runFrom_adds (ops : List Op) :
    ∀ st : AppState, (∀ op ∈ ops, isAddOp op = true) → allOkB st ops = true →
      (runFrom st ops).reminders = st.reminders ++ expNotes ops
      ∧ (runFrom st ops).moods = st.moods ++ expMoods ops
      ∧ (runFrom st ops).tasks = st.tasks ++ expTasks st.tasks.length ops
      ∧ (runFrom st ops).study_sessions = st.study_sessions ++ expSessions ops := by
  induction ops with
  | nil =>
    intro st _ _
    simp [runFrom, expNotes, expMoods, expTasks, expSessions]
  | cons op rest ih =>
    intro st hAdd hOk
    have hOk2 : opOkB st op = true ∧ allOkB (step st op) rest = true := by
      simpa [allOkB, Bool.and_eq_true] using hOk
    have hAddRest : ∀ o ∈ rest, isAddOp o = true := fun o ho => hAdd o (by simp [ho])
    have hrun : runFrom st (op :: rest) = runFrom (step st op) rest := rfl
    obtain ⟨ihr, ihm, iht, ihs⟩ := ih (step st op) hAddRest hOk2.2
    cases op with
    | addNote inp now =>
      have hst : step st (.addNote inp now) =
          { st with reminders := st.reminders ++ [mkNoteRec inp now] } :=
        add_note_ok st inp now hOk2.1
      rw [hrun, ihr, ihm, iht, ihs, hst]
      refine ⟨by simp [expNotes], by simp [expMoods], ?_, by simp [expSessions]⟩
      simp [expTasks]
    | moodCheck tx p s now =>
      have hst : step st (.moodCheck tx p s now) =
          { st with moods := st.moods ++ [mkMoodRec tx p s now] } :=
        mood_check_ok st tx p s now hOk2.1
      rw [hrun, ihr, ihm, iht, ihs, hst]
      refine ⟨by simp [expNotes], by simp [expMoods], ?_, by simp [expSessions]⟩
      simp [expTasks]
    | addTask inp now =>
      have hsub : inp.subject ∈ SUBJECTS := add_task_ok_subject st inp now hOk2.1
      have hst : step st (.addTask inp now) =
          { st with tasks := st.tasks ++ [mkTaskRec inp now (st.tasks.length + 1)] } := by
        show (add_task st inp now).1 = _
        rw [add_task_red st inp now hsub]
      rw [hrun, ihr, ihm, iht, ihs, hst]
      refine ⟨by simp [expNotes], by simp [expMoods], ?_, by simp [expSessions]⟩
      simp only [expTasks, List.length_append, List.length_cons, List.length_nil]
      rw [List.append_assoc]
      rfl
    | studySession inp r now =>
      have hst : step st (.studySession inp r now) =
          { st with study_sessions := st.study_sessions ++ [mkSessionRec inp now] } :=
        session_ok st inp r now hOk2.1
      rw [hrun, ihr, ihm, iht, ihs, hst]
      refine ⟨by simp [expNotes], by simp [expMoods], ?_, by simp [expSessions]⟩
      simp [expTasks]
    | updateStatus i s =>
      have := hAdd (.updateStatus i s) (by simp)
      simp [isAddOp] at this

theorem expLengths (ops : List Op) :
    ∀ n : Nat, (∀ op ∈ ops, isAddOp op = true) →
      (expNotes ops).length + (expMoods ops).length + (expTasks n ops).length
        + (expSessions ops).length = ops.length := by
  induction ops with
  | nil => intro n _; rfl
  | cons op rest ih =>
    intro n hAdd
    have hAddRest : ∀ o ∈ rest, isAddOp o = true := fun o ho => hAdd o (by simp [ho])
    cases op with
    | addNote inp now =>
      simp only [expNotes, expMoods, expTasks, expSessions, List.length_cons]
      have := ih n hAddRest
      omega
    | moodCheck tx p s now =>
      simp only [expNotes, expMoods, expTasks, expSessions, List.length_cons]
      have := ih n hAddRest
      omega
    | addTask inp now =>
      simp only [expNotes, expMoods, expTasks, expSessions, List.length_cons]
      have := ih (n + 1) hAddRest
      omega
    | studySession inp r now =>
      simp only [expNotes, expMoods, expTasks, expSessions, List.length_cons]
      have := ih n hAddRest
      omega
    | updateStatus i s =>
      have := hAdd (.updateStatus i s) (by simp)
      simp [isAddOp] at this

/-- C9: after any sequence of N successful add operations (any mix of
`add_note`, `mood_check`, `add_task`, `record_study_session`) starting from the
empty initial state, `all_data` returns the four stores holding exactly N
records in total — each store being precisely the list of records appended by
its operations, in order, with nothing lost or duplicated — together with the
two fixed reference enumerations.  `all_data` itself only reads the state. -/
theorem all_data_roundtrip (ops : List Op)
    (hAdd : ∀ op ∈ ops, isAddOp op = true) (hOk : allOkB initState ops = true) :
    (all_data (run ops)).reminders.length + (all_data (run ops)).mood_logs.length
        + (all_data (run ops)).tasks.length + (all_data (run ops)).study_sessions.length
      = ops.length
    ∧ (all_data (run ops)).reminders = expNotes ops
    ∧ (all_data (run ops)).mood_logs = expMoods ops
    ∧ (all_data (run ops)).tasks = expTasks 0 ops
    ∧ (all_data (run ops)).study_sessions = expSessions ops
    ∧ (all_data (run ops)).available_subjects = SUBJECTS
    ∧ (all_data (run ops)).note_categories = NOTE_CATEGORIES := by
  obtain ⟨hr, hm, ht, hs⟩ := runFrom_adds ops initState hAdd hOk
  have hr2 : (all_data (run ops)).reminders = expNotes ops := by
    show (run ops).reminders = _
    rw [run, hr]
    rfl
  have hm2 : (all_data (run ops)).mood_logs = expMoods ops := by
    show (run ops).moods = _
    rw [run, hm]
    rfl
  have ht2 : (all_data (run ops)).tasks = expTasks 0 ops := by
    show (run ops).tasks = _
    rw [run, ht]
    rfl
  have hs2 : (all_data (run ops)).study_sessions = expSessions ops := by
    show (run ops).study_sessions = _
    rw [run, hs]
    rfl
  refine ⟨?_, hr2, hm2, ht2, hs2, rfl, rfl⟩
  rw [hr2, hm2, ht2, hs2]
  exact expLengths ops 0 hAdd

def opsW9 : List Op :=
  [Op.addNote ⟨"Study chapter five for final exam", "Homework", 1⟩ "t1",
   Op.moodCheck "okay" 0 0 "t2",
   Op.addTask ⟨"T", "D", "2025-01-01", "Physics", 2, "pending"⟩ "t3",
   Op.studySession ⟨"Physics", 60, [], []⟩ ⟨2, by omega⟩ "t4"]

theorem all_data_roundtrip_witness :
    (all_data (run opsW9)).reminders.length + (all_data (run opsW9)).mood_logs.length
        + (all_data (run opsW9)).tasks.length + (all_data (run opsW9)).study_sessions.length
      = opsW9.length := by
  exact (all_data_roundtrip opsW9 (by decide) (by decide)).1

/-! ### C10: stored mood labels and the mood tally -/

def moodLabels : List String := ["😊 Happy", "😞 Sad", "😐 Neutral"]

/-- Number of tally substrings ("Happy", "Neutral", "Sad") occurring in a
stored mood label. -/
def labelCount (s : String) : Nat :=
  (if containsSub s "Happy" then 1 else 0)
    + (if containsSub s "Neutral" then 1 else 0)
    + (if containsSub s "Sad" then 1 else 0)

theorem classifyMood_label (p s : ℚ) (tx : String) :
    (classifyMood p s tx).mood ∈ moodLabels := by
  unfold classifyMood
  split_ifs <;> simp [moodLabels]

theorem run_moods_labels (ops : List Op) :
    ∀ m ∈ (run ops).moods, m.mood ∈ moodLabels := by
  suffices hgen : ∀ (l : List Op) (st : AppState),
      (∀ m ∈ st.moods, m.mood ∈ moodLabels) →
      ∀ m ∈ (runFrom st l).moods, m.mood ∈ moodLabels by
    exact hgen ops initState (by simp [initState])
  intro l
  induction l with
  | nil => intro st hinv; exact hinv
  | cons op rest ih =>
    intro st hinv
    have hstep : ∀ m ∈ (step st op).moods, m.mood ∈ moodLabels := by
      cases op with
      | addNote inp now =>
        rw [step, add_note_moods]
        exact hinv
      | moodCheck tx p s now =>
        intro m hm
        rcases mood_check_mem_moods st tx p s now m hm with h1 | h1
        · exact hinv m h1
        · rw [h1]
          exact classifyMood_label p s tx
      | addTask inp now =>
        rw [step, add_task_moods]
        exact hinv
      | studySession inp r now =>
        rw [step, session_moods]
        exact hinv
      | updateStatus i s =>
        rw [step, update_moods]
        exact hinv
    exact ih (step st op) hstep

theorem moods_tally_sum :
    ∀ moods : List MoodRecord, (∀ m ∈ moods, m.mood ∈ moodLabels) →
      (moods.filter (fun m => containsSub m.mood "Happy")).length
        + (moods.filter (fun m => containsSub m.mood "Neutral")).length
        + (moods.filter (fun m => containsSub m.mood "Sad")).length
      = moods.length := by
  intro moods
  induction moods with
  | nil => intro _; rfl
  | cons m rest ih =>
    intro h
    have hm : m.mood ∈ moodLabels := h m (by simp)
    have hrest := ih (fun x hx => h x (by simp [hx]))
    simp only [moodLabels, List.mem_cons, List.not_mem_nil, or_false] at hm
    rcases hm with hm | hm | hm
    · simp [List.filter_cons, hm,
        show containsSub "😊 Happy" "Happy" = true from by decide,
        show containsSub "😊 Happy" "Neutral" = false from by decide,
        show containsSub "😊 Happy" "Sad" = false from by decide]
      omega
    · simp [List.filter_cons, hm,
        show containsSub "😞 Sad" "Happy" = false from by decide,
        show containsSub "😞 Sad" "Neutral" = false from by decide,
        show containsSub "😞 Sad" "Sad" = true from by decide]
      omega
    · simp [List.filter_cons, hm,
        show containsSub "😐 Neutral" "Happy" = false from by decide,
        show containsSub "😐 Neutral" "Neutral" = true from by decide,
        show containsSub "😐 Neutral" "Sad" = false from by decide]
      omega

/-- C10: every stored mood record's label contains exactly one of the tally
substrings "Happy", "Sad", "Neutral" in every reachable store state, and
consequently the positive, neutral and negative counts of `get_study_stats`
always sum to the number of stored mood records. -/
theorem mood_labels_exactly_one (ops : List Op) :
    (∀ m ∈ (run ops).moods, labelCount m.mood = 1)
    ∧ (get_study_stats (run ops)).positive + (get_study_stats (run ops)).neutral
        + (get_study_stats (run ops)).negative = (run ops).moods.length := by
  have hinv := run_moods_labels ops
  constructor
  · intro m hm
    have hl := hinv m hm
    simp only [moodLabels, List.mem_cons, List.not_mem_nil, or_false] at hl
    rcases hl with h | h | h <;> rw [labelCount, h] <;> decide
  · exact moods_tally_sum (run ops).moods hinv

theorem mood_labels_exactly_one_witness :
    labelCount (mkMoodRec "meh" 0 0 "t").mood = 1 := by
  apply (mood_labels_exactly_one [Op.moodCheck "meh" 0 0 "t"]).1
  show mkMoodRec "meh" 0 0 "t" ∈ (run [Op.moodCheck "meh" 0 0 "t"]).moods
  have h : (run [Op.moodCheck "meh" 0 0 "t"]).moods = [mkMoodRec "meh" 0 0 "t"] := by
    show (step initState (Op.moodCheck "meh" 0 0 "t")).moods = _
    rw [step, mood_check_ok initState "meh" 0 0 "t" (by decide)]
    rfl
  rw [h]
  simp

end StudentCompanion
